import Mathlib

/-!
Shallow embedding of the Vaimo virtual-sommelier wine-advice logic.

Strings from the TypeScript source are modelled as `List Char`; JavaScript
numbers that hold prices are modelled as exact rationals `ℚ` (the price
strings parsed here never reach the magnitudes where binary floating point
and exact arithmetic diverge); JavaScript integer indices are `Nat`.

The definitions mirror, function by function, the code of
`src/app/api/wine-advice/route.ts`, `src/utils/delhaize-cart.ts` and the
chat component (`handleShowMore` / `handleSubmit`).
-/

namespace VSomm

/-- JS `\d` digit test (`[0-9]`). -/
def isDigitChar (c : Char) : Bool :=
  '0' ≤ c && c ≤ '9'

/-- JS `\s` whitespace test, restricted to the ASCII whitespace characters
that occur in the data handled here (space, tab, LF, CR, VT, FF). -/
def isSpaceJS (c : Char) : Bool :=
  c = ' ' || c = '\t' || c = '\n' || c = '\x0d' || c = '\x0b' || c = '\x0c'

/-- JS `\w` word-character test (`[A-Za-z0-9_]`). -/
def isWordChar (c : Char) : Bool :=
  ('a' ≤ c && c ≤ 'z') || ('A' ≤ c && c ≤ 'Z') || ('0' ≤ c && c ≤ '9') || c = '_'

/-- JS `String.prototype.toLowerCase` on one character, covering Basic Latin
and the Latin-1 letters (`À`–`Þ` except `×`) that occur in wine names. -/
def jsLowerChar (c : Char) : Char :=
  if ('A' ≤ c && c ≤ 'Z') || ('À' ≤ c && c ≤ 'Þ' && c ≠ '×') then
    Char.ofNat (c.toNat + 32)
  else c

/-- JS `toLowerCase` on a whole string. -/
def jsToLower (s : List Char) : List Char :=
  s.map jsLowerChar

/-- Decimal digits to a natural number. -/
def digitsToNat (ds : List Char) : Nat :=
  ds.foldl (fun acc c => 10 * acc + (c.toNat - '0'.toNat)) 0

/-- `priceStr.replace(/[^0-9,.-]/g, '')`: keep only digits, comma, dot, minus. -/
def keepPriceChar (c : Char) : Bool :=
  isDigitChar c || c = ',' || c = '.' || c = '-'

/-- `.replace(',', '.')` with a string pattern: replace only the first comma. -/
def replaceFirstComma : List Char → List Char
  | [] => []
  | c :: rest => if c = ',' then '.' :: rest else c :: replaceFirstComma rest

/-- The sanitisation pipeline of `parsePrice` before the float parse. -/
def sanitizePrice (s : List Char) : List Char :=
  replaceFirstComma (s.filter keepPriceChar)

/-- JS `parseFloat`, specialised to the alphabet left by `sanitizePrice`
(digits, `.`, `-`; a leading `+` is also accepted).  `parseFloat` skips
leading whitespace, takes an optional sign, then the longest prefix of the
form `digits[.digits]` or `.digits`; it returns NaN (here `none`) when no
digit is read.  Exponent and `Infinity` forms cannot occur after the
character strip, so they are not modelled. -/
def jsParseFloat (s : List Char) : Option ℚ :=
  let s1 := s.dropWhile isSpaceJS
  let sign : ℤ := match s1 with
    | '-' :: _ => -1
    | _ => 1
  let s2 := match s1 with
    | '-' :: rest => rest
    | '+' :: rest => rest
    | _ => s1
  let intDigits := s2.takeWhile isDigitChar
  let s3 := s2.dropWhile isDigitChar
  if intDigits = [] then
    match s3 with
    | '.' :: rest =>
      let fracDigits := rest.takeWhile isDigitChar
      if fracDigits = [] then none
      else some (mkRat (sign * (digitsToNat fracDigits : ℤ)) (10 ^ fracDigits.length))
    | _ => none
  else
    let fracDigits := match s3 with
      | '.' :: rest => rest.takeWhile isDigitChar
      | _ => []
    some (mkRat
      (sign * ((digitsToNat intDigits : ℤ) * 10 ^ fracDigits.length
        + (digitsToNat fracDigits : ℤ)))
      (10 ^ fracDigits.length))

/-- `parsePrice` from `route.ts`: strip to `[0-9,.-]`, first comma to dot,
`parseFloat`, and `|| 0` (NaN, hence `none`, becomes 0; a parsed 0 or -0 is
0 as well, so `getD 0` is faithful). -/
def parsePrice (s : List Char) : ℚ :=
  (jsParseFloat (sanitizePrice s)).getD 0

/-- The fields of the `Wine` record (`src/types/wine.ts`) that the wine-advice
logic reads.  `Color` is accessed with optional chaining (`w.Color?.`) in the
code, so it is modelled as possibly absent. -/
structure Wine where
  id : List Char
  Product_name : List Char
  Price : List Char
  Color : Option (List Char)
  URL : List Char
deriving DecidableEq

/-- `startsWithOf s p`: the list `s` begins with `p` (JS `String.startsWith`). -/
def startsWithOf : List Char → List Char → Bool
  | _, [] => true
  | [], _ :: _ => false
  | c :: cs, p :: ps => c = p && startsWithOf cs ps

/-- `hay.includes(needle)` on strings (JS `String.includes`). -/
def containsSub : List Char → List Char → Bool
  | [], needle => needle.isEmpty
  | c :: rest, needle => startsWithOf (c :: rest) needle || containsSub rest needle

/-- Case-insensitive literal match: `lit` (given lower-case) matches a prefix
of `s` up to `toLowerCase`; returns the remainder on success. -/
def matchLiteralCI : List Char → List Char → Option (List Char)
  | [], s => some s
  | _ :: _, [] => none
  | l :: ls, c :: cs => if jsLowerChar c = l then matchLiteralCI ls cs else none

/-- One attempt of the marker regex `/RECOMMENDED_IDS:?\s*\[([^\]]+)\]/i` at
the head of `s`: the literal (case-insensitively), an optional `:`, any
whitespace, `[`, then a non-empty bracket content followed by `]`. -/
def markerAt (s : List Char) : Option (List Char) :=
  match matchLiteralCI (("recommended_ids").toList) s with
  | none => none
  | some r1 =>
    let r2 := match r1 with
      | ':' :: t => t
      | _ => r1
    match r2.dropWhile isSpaceJS with
    | '[' :: t =>
      let content := t.takeWhile (fun c => c ≠ ']')
      if content = [] then none
      else if t.dropWhile (fun c => c ≠ ']') = [] then none
      else some content
    | _ => none

/-- First (leftmost) match of the marker regex over the whole reply,
returning the captured bracket content. -/
def markerCapture : List Char → Option (List Char)
  | [] => none
  | c :: rest =>
    match markerAt (c :: rest) with
    | some cap => some cap
    | none => markerCapture rest

/-- Separator class of the id split `.split(/[,\s]+/)`. -/
def isSepIds (c : Char) : Bool :=
  c = ',' || isSpaceJS c

/-- Maximal runs of non-separator characters (the non-empty tokens the JS
split produces; empty tokens are filtered out right after). -/
def splitTokensAux : List Char → List Char → List (List Char)
  | [], acc => if acc = [] then [] else [acc.reverse]
  | c :: rest, acc =>
    if isSepIds c then
      if acc = [] then splitTokensAux rest []
      else acc.reverse :: splitTokensAux rest []
    else splitTokensAux rest (c :: acc)

/-- `idSection[1].split(/[,\s]+/).map(s => s.replace(/"/g, "").trim()).filter(Boolean)`:
tokens contain no whitespace, so the `trim` is a no-op; quote characters are
removed and tokens that become empty are dropped. -/
def parseIds (cap : List Char) : List (List Char) :=
  ((splitTokensAux cap []).map (fun t => t.filter (fun c => c ≠ '"'))).filter
    (fun t => t ≠ [])

/-- Lookup in `new Map(wines.map(w => [w.id, w]))`: a JS `Map` keeps the last
entry written for a key, hence the search over the reversed list. -/
def wineMapGet (wines : List Wine) (i : List Char) : Option Wine :=
  wines.reverse.find? (fun w => w.id == i)

/-- The ids of the marker line resolved against the candidate map, in the
order the model stated them, unknown ids dropped. -/
def resolvedIds (cap : List Char) (wines : List Wine) : List Wine :=
  (parseIds cap).filterMap (wineMapGet wines)

/-- Layer 1 of `extractRecommendationsFromResponse`: explicit id list. -/
def layer1 (response : List Char) (wines : List Wine) : Option (List Wine) :=
  match markerCapture response with
  | none => none
  | some cap =>
    let foundOrdered := resolvedIds cap wines
    if foundOrdered = [] then none else some (foundOrdered.take 8)

/-- Unicode NFD decomposition of one character, restricted to the
pre-composed lower-case Latin letters that can occur in (lower-cased) wine
names; other characters are left alone.  A combining mark (stripped in the
next step of `normalizeJS`) follows the base letter. -/
def nfdChar (c : Char) : List Char :=
  match c with
  | 'à' => ['a', '̀'] | 'á' => ['a', '́'] | 'â' => ['a', '̂']
  | 'ã' => ['a', '̃'] | 'ä' => ['a', '̈'] | 'å' => ['a', '̊']
  | 'ç' => ['c', '̧']
  | 'è' => ['e', '̀'] | 'é' => ['e', '́'] | 'ê' => ['e', '̂']
  | 'ë' => ['e', '̈']
  | 'ì' => ['i', '̀'] | 'í' => ['i', '́'] | 'î' => ['i', '̂']
  | 'ï' => ['i', '̈']
  | 'ñ' => ['n', '̃']
  | 'ò' => ['o', '̀'] | 'ó' => ['o', '́'] | 'ô' => ['o', '̂']
  | 'õ' => ['o', '̃'] | 'ö' => ['o', '̈']
  | 'ù' => ['u', '̀'] | 'ú' => ['u', '́'] | 'û' => ['u', '̂']
  | 'ü' => ['u', '̈']
  | 'ý' => ['y', '́'] | 'ÿ' => ['y', '̈']
  | _ => [c]

/-- The combining-mark range `[̀-ͯ]` stripped by the normaliser. -/
def isCombiningMark (c : Char) : Bool :=
  '̀' ≤ c && c ≤ 'ͯ'

/-- Helper of `collapseWs`: the flag records whether the previous character
was whitespace (and was already replaced by the single space). -/
def collapseWsAux : List Char → Bool → List Char
  | [], _ => []
  | c :: rest, prevSpace =>
    if isSpaceJS c then
      if prevSpace then collapseWsAux rest true
      else ' ' :: collapseWsAux rest true
    else c :: collapseWsAux rest false

/-- `.replace(/\s+/g, " ")`: every whitespace run becomes one space. -/
def collapseWs (s : List Char) : List Char :=
  collapseWsAux s false

/-- JS `String.trim` (for the whitespace alphabet used here). -/
def trimJS (s : List Char) : List Char :=
  ((s.dropWhile isSpaceJS).reverse.dropWhile isSpaceJS).reverse

/-- The `normalize` helper of the numbered-title extraction layer:
lower-case, NFD, strip combining marks, drop `[^\w\s]`, collapse whitespace,
trim. -/
def normalizeJS (s : List Char) : List Char :=
  trimJS (collapseWs
    (((((jsToLower s).map nfdChar).flatten).filter (fun c => !isCombiningMark c)).filter
      (fun c => isWordChar c || isSpaceJS c)))

/-- One attempt of `/^\d+\.\s+(.*)$/` at a line-start position: digits, a
dot, at least one whitespace character (`\s+` may greedily run across line
breaks), then the capture runs to the next newline.  Returns the trimmed
capture (the code pushes `match[1].trim()`) and the remainder of the text
after the capture. -/
def matchNumberedAt (s : List Char) : Option (List Char × List Char) :=
  if s.takeWhile isDigitChar = [] then none
  else
    match s.dropWhile isDigitChar with
    | '.' :: r =>
      if r.takeWhile isSpaceJS = [] then none
      else
        let afterWs := r.dropWhile isSpaceJS
        let title := afterWs.takeWhile (fun c => c ≠ '\n')
        some (trimJS title, afterWs.dropWhile (fun c => c ≠ '\n'))
    | _ => none

/-- `titleRegex.exec` loop with the `gm` flags: try the pattern at every
line-start position (the start of the text, or just after a `\n`), collect
the captures left to right, and resume after each match.  The fuel is the
text length, which bounds the number of steps. -/
def execNumbered : Nat → List Char → Bool → List (List Char)
  | 0, _, _ => []
  | _ + 1, [], _ => []
  | fuel + 1, c :: rest, atStart =>
    match (if atStart then matchNumberedAt (c :: rest) else none) with
    | some (title, rem) => title :: execNumbered fuel rem false
    | none => execNumbered fuel rest (c = '\n')

/-- All captures of `/^\d+\.\s+(.*)$/gm` over the reply, trimmed. -/
def numberedTitles (response : List Char) : List (List Char) :=
  execNumbered (response.length + 1) response true

/-- The numbered titles matched against the candidates: each title picks the
first wine whose normalised display name starts with the normalised title. -/
def matchedTitles (response : List Char) (wines : List Wine) : List Wine :=
  (numberedTitles response).filterMap
    (fun t => wines.find? (fun w => startsWithOf (normalizeJS w.Product_name) (normalizeJS t)))

/-- Layer 2 of `extractRecommendationsFromResponse`: numbered titles. -/
def layer2 (response : List Char) (wines : List Wine) : Option (List Wine) :=
  let matched := matchedTitles response wines
  if matched = [] then none else some (matched.take 8)

/-- The candidates whose lower-cased display name occurs in the lower-cased
reply (a falsy, i.e. empty, `Product_name` is skipped), in candidate-list
order — the collection loop of layer 3. -/
def substringMatches (response : List Char) (wines : List Wine) : List Wine :=
  let responseText := jsToLower response
  wines.filter (fun w =>
    !w.Product_name.isEmpty && containsSub responseText (jsToLower w.Product_name))

/-- Layer 3 of `extractRecommendationsFromResponse`: substring fallback (the
loop breaks once 8 matches are collected, i.e. it takes the first 8). -/
def layer3 (response : List Char) (wines : List Wine) : Option (List Wine) :=
  let recsByName := (substringMatches response wines).take 8
  if recsByName = [] then none else some recsByName

/-- `w.Product_name.toLowerCase().includes(kw)` for a lower-case keyword. -/
def nameHasKw (w : Wine) (kw : List Char) : Bool :=
  containsSub (jsToLower w.Product_name) kw

/-- The `red` category filter of `getIntelligentFallback`. -/
def catRed (wines : List Wine) : List Wine :=
  wines.filter (fun w =>
    nameHasKw w (("rouge").toList) || nameHasKw w (("red").toList)
    || nameHasKw w (("merlot").toList) || nameHasKw w (("cabernet").toList)
    || nameHasKw w (("syrah").toList))

/-- The `white` category filter of `getIntelligentFallback`. -/
def catWhite (wines : List Wine) : List Wine :=
  wines.filter (fun w =>
    nameHasKw w (("blanc").toList) || nameHasKw w (("white").toList)
    || nameHasKw w (("chardonnay").toList) || nameHasKw w (("sauvignon").toList))

/-- The `sparkling` category filter of `getIntelligentFallback`. -/
def catSparkling (wines : List Wine) : List Wine :=
  wines.filter (fun w =>
    nameHasKw w (("champagne").toList) || nameHasKw w (("mousseux").toList)
    || nameHasKw w (("brut").toList))

/-- The `rose` category filter of `getIntelligentFallback`. -/
def catRose (wines : List Wine) : List Wine :=
  wines.filter (fun w =>
    nameHasKw w (("rosé").toList) || nameHasKw w (("rose").toList)
    || nameHasKw w (("gris").toList))

/-- `if (categories.x.length > 0) recommendations.push(categories.x[0])`. -/
def pushHead (recs : List Wine) (cat : List Wine) : List Wine :=
  match cat with
  | [] => recs
  | c :: _ => recs ++ [c]

/-- The `while (recommendations.length < 4 && ... < wines.length)` fill loop:
each round appends the first wine not already picked (the JS `includes` uses
object identity; catalog entries are distinct objects, modelled by value
equality), or stops.  Four units of fuel bound the `< 4` loop. -/
def fillLoop (wines : List Wine) : Nat → List Wine → List Wine
  | 0, recs => recs
  | fuel + 1, recs =>
    if recs.length < 4 ∧ recs.length < wines.length then
      match wines.filter (fun w => !recs.contains w) with
      | [] => recs
      | r :: _ => fillLoop wines fuel (recs ++ [r])
    else recs

/-- `getIntelligentFallback` from `route.ts`: one head per non-empty
category (red, white, sparkling, rose in that order), then fill to 4. -/
def getIntelligentFallback (wines : List Wine) : List Wine :=
  let recs := pushHead (pushHead (pushHead (pushHead [] (catRed wines))
    (catWhite wines)) (catSparkling wines)) (catRose wines)
  (fillLoop wines 4 recs).take 4

/-- `extractRecommendationsFromResponse` from `route.ts`: the id layer, then
the numbered-title layer, then the substring layer, then the category
fallback. -/
def extractRecommendationsFromResponse (response : List Char) (wines : List Wine) :
    List Wine :=
  match layer1 response wines with
  | some r => r
  | none =>
    match layer2 response wines with
    | some r => r
    | none =>
      match layer3 response wines with
      | some r => r
      | none => getIntelligentFallback wines

/-- One alternative of a price regex tried at the head of `text`: the
literal, then `\s*`, then `\d+` (at least one digit; the greedy run is
captured and `parseFloat`-ed, giving its numeric value). -/
def priceAltAt (alt : List Char) (s : List Char) : Option Nat :=
  if startsWithOf s alt then
    let r := (s.drop alt.length).dropWhile isSpaceJS
    let ds := r.takeWhile isDigitChar
    if ds = [] then none else some (digitsToNat ds)
  else none

/-- Leftmost match of `/(?:alt1|alt2|...)\s*(\d+)/` over `text`: at each
position the alternatives are tried in order. -/
def scanPrice (alts : List (List Char)) : List Char → Option Nat
  | [] => none
  | c :: rest =>
    match alts.findSome? (fun alt => priceAltAt alt (c :: rest)) with
    | some n => some n
    | none => scanPrice alts rest

/-- `text.match(/(?:above|over|greater than)\s*(\d+)/i)` (on the lower-cased
message, so the case-insensitive flag is moot). -/
def matchAbove (text : List Char) : Option Nat :=
  scanPrice [("above").toList, ("over").toList, ("greater than").toList] text

/-- `text.match(/(?:under|less than|below)\s*(\d+)/i)`. -/
def matchUnder (text : List Char) : Option Nat :=
  scanPrice [("under").toList, ("less than").toList, ("below").toList] text

/-- One alternative of `/\b(expensive|premium|high[- ]end|luxury)\b/` at the
head of `s` (the position is already known to be a word boundary): the
literal followed by a word boundary. -/
def luxAltAt (alt : List Char) (s : List Char) : Bool :=
  startsWithOf s alt &&
    (match s.drop alt.length with
     | [] => true
     | d :: _ => !isWordChar d)

/-- The luxury alternatives; `high[- ]end` expands to its two spellings. -/
def luxAlts : List (List Char) :=
  [("expensive").toList, ("premium").toList, ("high-end").toList,
   ("high end").toList, ("luxury").toList]

/-- `/\b(expensive|premium|high[- ]end|luxury)\b/i.test(text)` on the
lower-cased message: scan left to right, tracking whether the previous
character was a word character (for the left boundary `\b`). -/
def hasLuxuryAux : List Char → Bool → Bool
  | [], _ => false
  | c :: rest, prevWord =>
    (!prevWord && luxAlts.any (fun alt => luxAltAt alt (c :: rest)))
    || hasLuxuryAux rest (isWordChar c)

/-- The luxury/premium keyword test of the `POST` handler. -/
def hasLuxury (text : List Char) : Bool :=
  hasLuxuryAux text false

/-- The candidate prices sorted ascending
(`candidates.map(w => parsePrice(w.Price)).sort((a, b) => a - b)`). -/
def sortedPrices (candidates : List Wine) : List ℚ :=
  (candidates.map (fun w => parsePrice w.Price)).insertionSort (· ≤ ·)

/-- `prices[Math.floor(prices.length * 0.75)]`: the product by 0.75 is exact
in floating point, so the index is `(3·n)/4` in integer arithmetic; the
index is in range whenever the list is non-empty, so the default of `getD`
is never read. -/
def percentile75 (candidates : List Wine) : ℚ :=
  (sortedPrices candidates).getD ((3 * (sortedPrices candidates).length) / 4) 0

/-- The exclusion stage of the `POST` handler: already-shown ids are removed
(the code skips the filter entirely when `excludeIds` is empty, which gives
the same list as filtering by the empty exclusion set). -/
def baseOf (wines : List Wine) (excludeIds : List (List Char)) : List Wine :=
  if excludeIds.isEmpty then wines
  else wines.filter (fun w => !excludeIds.contains w.id)

/-- The candidate pre-filter of the `POST` handler: drop already-shown ids,
then the price chain — `above` wins over `under`, which wins over the luxury
percentile filter; otherwise no price filter. -/
def preFilter (message : List Char) (wines : List Wine)
    (excludeIds : List (List Char)) : List Wine :=
  let candidates := baseOf wines excludeIds
  let text := jsToLower message
  match matchAbove text with
  | some n => candidates.filter (fun w => decide (parsePrice w.Price > (n : ℚ)))
  | none =>
    match matchUnder text with
    | some n => candidates.filter (fun w => decide (parsePrice w.Price < (n : ℚ)))
    | none =>
      if hasLuxury text then
        if (sortedPrices candidates).length > 0 then
          candidates.filter (fun w => decide (parsePrice w.Price ≥ percentile75 candidates))
        else candidates
      else candidates

/-- `w.Color?.toLowerCase() === c` for a lower-case colour literal. -/
def colorIs (w : Wine) (c : List Char) : Bool :=
  match w.Color with
  | some col => jsToLower col = c
  | none => false

/-- The colour-keyword filter of `getSimpleFallback` (checked in the order
red, white, rose, sparkling; no keyword gives the empty list). -/
def colorFiltered (message : List Char) (wines : List Wine) : List Wine :=
  let lower := jsToLower message
  if containsSub lower (("red").toList) then wines.filter (fun w => colorIs w (("red").toList))
  else if containsSub lower (("white").toList) then
    wines.filter (fun w => colorIs w (("white").toList))
  else if containsSub lower (("ros").toList) || containsSub lower (("rose").toList) then
    wines.filter (fun w => colorIs w (("rose").toList))
  else if containsSub lower (("sparkling").toList) || containsSub lower (("bubbl").toList) then
    wines.filter (fun w => colorIs w (("sparkling").toList))
  else []

/-- `getSimpleFallback` from `route.ts`: the colour-filtered wines when at
least 3 matched, otherwise the first 3 of the whole catalog. -/
def getSimpleFallback (message : List Char) (wines : List Wine) : List Wine :=
  let filtered := colorFiltered message wines
  if filtered.length ≥ 3 then filtered.take 3 else wines.take 3

/-- The three supported interface languages. -/
inductive Language where
  | en
  | fr
  | nl
deriving DecidableEq

/-- `generateFallbackResponse` from `route.ts`: a canned language-specific
message (the message and wines arguments are ignored by the code). -/
def generateFallbackResponse (message : List Char) (wines : List Wine)
    (language : Language) : List Char :=
  match language with
  | .en => ("Based on your preferences, here are some excellent wine options from our Delhaize selection. These wines would be perfect for your needs!").toList
  | .fr => ("Basé sur vos préférences, voici d'excellentes options de vin de notre sélection Delhaize. Ces vins seraient parfaits pour vos besoins !").toList
  | .nl => ("Op basis van uw voorkeuren zijn hier enkele uitstekende wijnopties uit onze Delhaize selectie. Deze wijnen zouden perfect zijn voor uw behoeften!").toList

/-- The degraded path of the `POST` handler (no API key, or the completion
call threw): the canned message and `getSimpleFallback` over the raw query
and the raw catalog, with no further call. -/
def degradedResponse (message : List Char) (wines : List Wine)
    (language : Language) : List Char × List Wine :=
  (generateFallbackResponse message wines language, getSimpleFallback message wines)

/-- Modelled from the spec's words for claim C5 (refinement comparison
only): the substring fallback examining the candidates longest display name
first — sort by display-name length descending, keep those whose lower-cased
name occurs in the lower-cased reply, cap at 8. -/
def claimedSubstringFallback (response : List Char) (wines : List Wine) : List Wine :=
  let responseText := jsToLower response
  ((wines.insertionSort (fun a b => b.Product_name.length ≤ a.Product_name.length)).filter
    (fun w => containsSub responseText (jsToLower w.Product_name))).take 8

/-- Modelled from the spec's words for claim C6 (refinement comparison
only): the first 3 catalog items whose colour matches the colour keyword of
the query, or the first 3 items of the catalog when there is no keyword. -/
def claimedSimpleFallback (message : List Char) (wines : List Wine) : List Wine :=
  let lower := jsToLower message
  if containsSub lower (("red").toList) then
    (wines.filter (fun w => colorIs w (("red").toList))).take 3
  else if containsSub lower (("white").toList) then
    (wines.filter (fun w => colorIs w (("white").toList))).take 3
  else if containsSub lower (("ros").toList) || containsSub lower (("rose").toList) then
    (wines.filter (fun w => colorIs w (("rose").toList))).take 3
  else if containsSub lower (("sparkling").toList) || containsSub lower (("bubbl").toList) then
    (wines.filter (fun w => colorIs w (("sparkling").toList))).take 3
  else wines.take 3

/-- The pagination state of the chat component: the ids of the wine cards
already rendered for the current query (`shownIds`). -/
structure PageState where
  shownIds : List (List Char)
deriving DecidableEq

/-- `handleShowMore` from the chat component: the next batch is
`lastRecs.slice(start, start + 4)` with `start = shownIds.length`; when it is
empty nothing happens, otherwise the batch is rendered, its ids are appended
to `shownIds`, and a further show-more affordance is added exactly when
items remain.  Returns (new state, rendered batch, show-more offered).  No
network request is involved: the result depends only on `lastRecs` and the
state. -/
def handleShowMore (lastRecs : List Wine) (s : PageState) :
    PageState × List Wine × Bool :=
  let start := s.shownIds.length
  let nextBatch := (lastRecs.drop start).take 4
  if nextBatch = [] then (s, [], false)
  else
    (⟨s.shownIds ++ nextBatch.map Wine.id⟩, nextBatch,
      decide (start + nextBatch.length < lastRecs.length))

/-- The initial render of `handleSubmit` over the padded list `fullRecs`:
the first 4 cards, `shownIds` set to their ids, and a show-more affordance
exactly when more remain. -/
def initialShow (fullRecs : List Wine) : PageState × List Wine × Bool :=
  let initialRecs := fullRecs.take 4
  (⟨initialRecs.map Wine.id⟩, initialRecs,
    decide (fullRecs.length > initialRecs.length))

/-- The pagination state after the initial render and `k` show-more steps. -/
def runPagination (recs : List Wine) : Nat → PageState
  | 0 => (initialShow recs).1
  | k + 1 => (handleShowMore recs (runPagination recs k)).1

/-- A cart entry of `DelhaizeCart` (`src/utils/delhaize-cart.ts`): the wine,
a quantity, and the `addedAt` timestamp (modelled as a tick count). -/
structure CartItem where
  wine : Wine
  quantity : ℤ
  addedAt : Nat
deriving DecidableEq

/-- `MAX_CART_ITEMS` from `delhaize-cart.ts`. -/
def MAX_CART_ITEMS : Nat := 20

/-- In-place update of the element at an index (JS `arr[i].f = v`). -/
def modifyAt : List α → Nat → (α → α) → List α
  | [], _, _ => []
  | x :: xs, 0, f => f x :: xs
  | x :: xs, n + 1, f => x :: modifyAt xs n f

/-- `DelhaizeCart.addItem`: wines are keyed by URL; an existing entry gets
its quantity increased by `q` and its timestamp refreshed; otherwise a new
entry is appended unless the cart already holds `MAX_CART_ITEMS` entries
(then the call fails and returns `false`). -/
def addItem (cart : List CartItem) (wine : Wine) (q : ℤ) (now : Nat) :
    List CartItem × Bool :=
  match cart.findIdx? (fun it => it.wine.URL == wine.URL) with
  | some i =>
    (modifyAt cart i (fun it => { it with quantity := it.quantity + q, addedAt := now }), true)
  | none =>
    if cart.length ≥ MAX_CART_ITEMS then (cart, false)
    else (cart ++ [⟨wine, q, now⟩], true)

/-- `DelhaizeCart.removeItem`: drop every entry with the given URL. -/
def removeItem (cart : List CartItem) (url : List Char) : List CartItem :=
  cart.filter (fun it => it.wine.URL != url)

/-- `DelhaizeCart.updateQuantity`: when the URL is present, a non-positive
quantity removes the entry and a positive one overwrites it; an absent URL
is a no-op. -/
def updateQuantity (cart : List CartItem) (url : List Char) (q : ℤ) :
    List CartItem :=
  match cart.findIdx? (fun it => it.wine.URL == url) with
  | some i =>
    if q ≤ 0 then removeItem cart url
    else modifyAt cart i (fun it => { it with quantity := q })
  | none => cart

/-- The cart states reachable from the empty cart through the public
mutators, with `addItem` quantities restricted to the 1..10 range the
quantity selector of the wine popup can produce. -/
inductive ReachableCart : List CartItem → Prop where
  | empty : ReachableCart []
  | add {c : List CartItem} (wine : Wine) (q : ℤ) (now : Nat)
      (hq1 : 1 ≤ q) (hq10 : q ≤ 10) (h : ReachableCart c) :
      ReachableCart (addItem c wine q now).1
  | remove {c : List CartItem} (url : List Char) (h : ReachableCart c) :
      ReachableCart (removeItem c url)
  | update {c : List CartItem} (url : List Char) (q : ℤ) (h : ReachableCart c) :
      ReachableCart (updateQuantity c url q)

/-- Convenience constructor for concrete wines in the test instances. -/
def mkWine (i n p : String) (c : Option String) (u : String) : Wine :=
  ⟨i.toList, n.toList, p.toList, c.map (fun x => x.toList), u.toList⟩

/-- Sample catalog entry: a red at 10 €. -/
def wAlpha : Wine := mkWine "id1" "Alpha One" "10,00 €" (some "red") "u1"

/-- Sample catalog entry: a white at 20 €. -/
def wBeta : Wine := mkWine "id2" "Beta Two" "20,00 €" (some "white") "u2"

/-- Sample catalog entry: a red at 30 €. -/
def wGamma : Wine := mkWine "id3" "Gamma Three" "30,00 €" (some "red") "u3"

/-- Sample catalog entry: a rose at 40 €. -/
def wDelta : Wine := mkWine "id4" "Delta Four" "40,00 €" (some "rose") "u4"

/-- Sample catalog entry: a third red, for the colour-fallback instance. -/
def wEps : Wine := mkWine "id5" "Epsilon Five" "15,00 €" (some "red") "u5"

/-- A small sample catalog. -/
def sampleWines : List Wine := [wAlpha, wBeta, wGamma, wDelta]

/-- A reply with a well-formed marker line: two quoted/plain known ids, one
unknown id, one more known id. -/
def c1resp : List Char :=
  ("Here you go!\nRECOMMENDED_IDS: [\"id2\", id3, idX, id1]\nEnjoy.").toList

/-- The bracket content the marker regex captures out of `c1resp`. -/
def c1cap : List Char := ("\"id2\", id3, idX, id1").toList

/-- A reply with no marker line but a numbered list of two exact titles. -/
def c4resp : List Char := ("I suggest:\n1. Gamma Three\n2. Alpha One\nCheers").toList

/-- A reply that only mentions wines in running text. -/
def c5resp : List Char := ("Try the beta two, or alpha one.").toList

/-- Candidate with the one-letter display name `a`. -/
def c5wineA : Wine := mkWine "a1" "a" "5 €" none "ua"

/-- Candidate with the two-letter display name `ab` (contains `a`). -/
def c5wineB : Wine := mkWine "b1" "ab" "6 €" none "ub"

/-- A white wine listed before the only red one. -/
def c6white : Wine := mkWine "w" "White One" "5 €" (some "white") "uw"

/-- The only red wine of the two-item catalog. -/
def c6red : Wine := mkWine "r" "Red One" "6 €" (some "red") "ur"

/-- A ten-wine padded recommendation list with distinct ids. -/
def pagWines : List Wine :=
  [mkWine "p1" "P One" "1 €" none "v1", mkWine "p2" "P Two" "2 €" none "v2",
   mkWine "p3" "P Three" "3 €" none "v3", mkWine "p4" "P Four" "4 €" none "v4",
   mkWine "p5" "P Five" "5 €" none "v5", mkWine "p6" "P Six" "6 €" none "v6",
   mkWine "p7" "P Seven" "7 €" none "v7", mkWine "p8" "P Eight" "8 €" none "v8",
   mkWine "p9" "P Nine" "9 €" none "v9", mkWine "pA" "P Ten" "10 €" none "vA"]

/-- The wine added twice to the cart in the quantity counterexample. -/
def c9wine : Wine := mkWine "id9" "Niner" "9,99 €" (some "red") "u9"

/-- The cart after adding `c9wine` with quantity 10 twice: one entry of
quantity 20. -/
def c9cart : List CartItem := (addItem (addItem [] c9wine 10 0).1 c9wine 10 1).1

/-! ### Helper lemmas -/

/-- A `take` with positive count of a non-empty list is non-empty. -/
theorem take_ne_nil_of_ne_nil {α : Type} {l : List α} {n : Nat} (hn : n ≠ 0)
    (h : l ≠ []) : l.take n ≠ [] := by
  simp [List.take_eq_nil_iff, hn, h]

/-- A successful layer 1 always returns a non-empty list. -/
theorem layer1_ne_nil {r : List Char} {ws l : List Wine}
    (h : layer1 r ws = some l) : l ≠ [] := by
  unfold layer1 at h
  cases hm : markerCapture r with
  | none => rw [hm] at h; exact absurd h (by simp)
  | some cap =>
    rw [hm] at h
    by_cases hf : resolvedIds cap ws = []
    · simp [hf] at h
    · simp only [hf, if_false] at h
      rw [← Option.some_inj.mp h]
      exact take_ne_nil_of_ne_nil (by decide) hf

/-- A successful layer 2 always returns a non-empty list. -/
theorem layer2_ne_nil {r : List Char} {ws l : List Wine}
    (h : layer2 r ws = some l) : l ≠ [] := by
  unfold layer2 at h
  by_cases hm : matchedTitles r ws = []
  · simp [hm] at h
  · simp only [hm, if_false] at h
    rw [← Option.some_inj.mp h]
    exact take_ne_nil_of_ne_nil (by decide) hm

/-- A successful layer 3 always returns a non-empty list. -/
theorem layer3_ne_nil {r : List Char} {ws l : List Wine}
    (h : layer3 r ws = some l) : l ≠ [] := by
  unfold layer3 at h
  by_cases hm : (substringMatches r ws).take 8 = []
  · simp [hm] at h
  · simp only [hm, if_false] at h
    rw [← Option.some_inj.mp h]
    exact hm

/-- The fill loop never turns a non-empty accumulator empty. -/
theorem fillLoop_ne_nil (wines : List Wine) (fuel : Nat) (recs : List Wine)
    (h : recs ≠ []) : fillLoop wines fuel recs ≠ [] := by
  induction fuel generalizing recs with
  | zero => simpa [fillLoop] using h
  | succ fuel ih =>
    rw [fillLoop]
    split
    · cases hr : wines.filter (fun w => !recs.contains w) with
      | nil => exact h
      | cons r t => exact ih (recs ++ [r]) (by simp)
    · exact h

/-- On a non-empty catalog the category fallback returns something. -/
theorem getIntelligentFallback_ne_nil {wines : List Wine} (h : wines ≠ []) :
    getIntelligentFallback wines ≠ [] := by
  unfold getIntelligentFallback
  apply take_ne_nil_of_ne_nil (by decide)
  set recs := pushHead (pushHead (pushHead (pushHead [] (catRed wines))
    (catWhite wines)) (catSparkling wines)) (catRose wines) with hrecs
  by_cases hr : recs = []
  · rw [hr]
    cases wines with
    | nil => exact absurd rfl h
    | cons w t =>
      rw [fillLoop]
      have hcond : ([] : List Wine).length < 4 ∧ ([] : List Wine).length < (w :: t).length := by
        simp
      rw [if_pos hcond]
      have hfil : (w :: t).filter (fun x => !([] : List Wine).contains x)
          = w :: t.filter (fun x => !([] : List Wine).contains x) := by
        simp [List.filter_cons]
      rw [hfil]
      exact fillLoop_ne_nil _ _ _ (by simp)
  · exact fillLoop_ne_nil _ _ _ hr

/-- The extractor reduced on a successful layer 1. -/
theorem extract_of_layer1 {r : List Char} {ws l : List Wine}
    (h : layer1 r ws = some l) : extractRecommendationsFromResponse r ws = l := by
  unfold extractRecommendationsFromResponse
  rw [h]

/-- The extractor reduced on a successful layer 2. -/
theorem extract_of_layer2 {r : List Char} {ws l : List Wine}
    (h1 : layer1 r ws = none) (h2 : layer2 r ws = some l) :
    extractRecommendationsFromResponse r ws = l := by
  unfold extractRecommendationsFromResponse
  rw [h1, h2]

/-- The extractor reduced on a successful layer 3. -/
theorem extract_of_layer3 {r : List Char} {ws l : List Wine}
    (h1 : layer1 r ws = none) (h2 : layer2 r ws = none) (h3 : layer3 r ws = some l) :
    extractRecommendationsFromResponse r ws = l := by
  unfold extractRecommendationsFromResponse
  rw [h1, h2, h3]

/-! ### The claims -/

/-- C7: `parsePrice` is total — it keeps only digits, comma, dot and minus,
turns the first comma into a decimal point, parses the result as a number,
and yields 0 whenever the parse fails; `parsePrice "13,99 €" = 13.99` and
`parsePrice "n/a" = 0`. -/
theorem c7_parsePrice_total :
    parsePrice (("13,99 €").toList) = 1399 / 100 ∧
    parsePrice (("n/a").toList) = 0 ∧
    ∀ s : List Char, jsParseFloat (sanitizePrice s) = none → parsePrice s = 0 := by
  refine ⟨?_, by decide, ?_⟩
  · have h : parsePrice (("13,99 €").toList) = mkRat 1399 100 := by decide
    rw [h]
    norm_num [mkRat, Rat.normalize]
  · intro s hs
    simp [parsePrice, hs]

/-- Witness for C7 at the unparseable input `"n/a"`. -/
theorem c7_parsePrice_total_witness :
    jsParseFloat (sanitizePrice (("n/a").toList)) = none ∧
    parsePrice (("n/a").toList) = 0 :=
  ⟨by decide, c7_parsePrice_total.2.2 (("n/a").toList) (by decide)⟩

/-- C2: the extractor contract — an empty candidate list yields an empty
result, and a non-empty candidate list always yields a non-empty result
(the category fallback is the last resort). -/
theorem c2_extract_contract (response : List Char) (wines : List Wine) :
    (wines = [] → extractRecommendationsFromResponse response wines = []) ∧
    (wines ≠ [] → extractRecommendationsFromResponse response wines ≠ []) := by
  constructor
  · rintro rfl
    have h1 : layer1 response [] = none := by
      unfold layer1
      cases hm : markerCapture response with
      | none => rfl
      | some cap => simp [resolvedIds, wineMapGet]
    have h2 : layer2 response [] = none := by
      simp [layer2, matchedTitles]
    have h3 : layer3 response [] = none := by
      simp [layer3, substringMatches]
    unfold extractRecommendationsFromResponse
    rw [h1, h2, h3]
    decide
  · intro hw
    unfold extractRecommendationsFromResponse
    cases h1 : layer1 response wines with
    | some r => exact layer1_ne_nil h1
    | none =>
      cases h2 : layer2 response wines with
      | some r => exact layer2_ne_nil h2
      | none =>
        cases h3 : layer3 response wines with
        | some r => exact layer3_ne_nil h3
        | none => exact getIntelligentFallback_ne_nil hw

/-- Witness for C2 on the empty catalog and on the sample catalog. -/
theorem c2_extract_contract_witness :
    extractRecommendationsFromResponse (("nothing relevant").toList) [] = [] ∧
    extractRecommendationsFromResponse (("nothing relevant").toList) sampleWines ≠ [] :=
  ⟨(c2_extract_contract (("nothing relevant").toList) []).1 rfl,
   (c2_extract_contract (("nothing relevant").toList) sampleWines).2 (by decide)⟩

/-- Under duplicate-free ids, the id map is insensitive to the candidate
order. -/
theorem wineMapGet_perm {ws ws₂ : List Wine} (hp : ws.Perm ws₂)
    (hnd : (ws.map Wine.id).Nodup) (i : List Char) :
    wineMapGet ws i = wineMapGet ws₂ i := by
  unfold wineMapGet
  cases h : ws.reverse.find? (fun w => w.id == i) with
  | none =>
    cases h2 : ws₂.reverse.find? (fun w => w.id == i) with
    | none => rfl
    | some w =>
      exfalso
      have hid := List.find?_some h2
      have hw : w ∈ ws := by
        have := List.mem_of_find?_eq_some h2
        rw [List.mem_reverse] at this
        exact hp.symm.subset this
      have := List.find?_eq_none.mp h w (by rwa [List.mem_reverse])
      exact this hid
  | some w =>
    have hid := List.find?_some h
    have hw : w ∈ ws := by
      have := List.mem_of_find?_eq_some h
      rwa [List.mem_reverse] at this
    cases h2 : ws₂.reverse.find? (fun w => w.id == i) with
    | none =>
      exfalso
      have := List.find?_eq_none.mp h2 w (by rw [List.mem_reverse]; exact hp.subset hw)
      exact this hid
    | some w' =>
      have hid' := List.find?_some h2
      have hw' : w' ∈ ws := by
        have := List.mem_of_find?_eq_some h2
        rw [List.mem_reverse] at this
        exact hp.symm.subset this
      have : w = w' := by
        apply List.inj_on_of_nodup_map hnd hw hw'
        rw [beq_iff_eq] at hid hid'
        rw [hid, hid']
      rw [this]

/-- C1: a reply with a marker line resolving to at least one candidate id is
answered from the marker alone — the items come back in the order the ids
were stated, unknown ids are dropped silently, the result is capped at 8,
and (for duplicate-free ids) it does not depend on the candidate order. -/
theorem c1_structured_ids (response : List Char) (wines : List Wine)
    (cap : List Char) (hm : markerCapture response = some cap)
    (hne : resolvedIds cap wines ≠ []) :
    extractRecommendationsFromResponse response wines = (resolvedIds cap wines).take 8 ∧
    ∀ wines₂ : List Wine, wines.Perm wines₂ → (wines.map Wine.id).Nodup →
      extractRecommendationsFromResponse response wines₂ = (resolvedIds cap wines).take 8 := by
  constructor
  · apply extract_of_layer1
    unfold layer1
    rw [hm]
    simp [hne]
  · intro wines₂ hp hnd
    have hres : resolvedIds cap wines₂ = resolvedIds cap wines := by
      unfold resolvedIds
      have : wineMapGet wines₂ = wineMapGet wines := by
        funext i
        exact (wineMapGet_perm hp hnd i).symm
      rw [this]
    apply Eq.trans (b := (resolvedIds cap wines₂).take 8)
    · apply extract_of_layer1
      unfold layer1
      rw [hm]
      simp [hres, hne]
    · rw [hres]

/-- Witness for C1: three known ids and one unknown id give exactly the
three known items in the stated order, on the sample catalog and on a
permutation of it. -/
theorem c1_structured_ids_witness :
    extractRecommendationsFromResponse c1resp sampleWines = [wBeta, wGamma, wAlpha] ∧
    extractRecommendationsFromResponse c1resp [wDelta, wGamma, wBeta, wAlpha]
      = [wBeta, wGamma, wAlpha] :=
  ⟨((c1_structured_ids c1resp sampleWines c1cap (by decide) (by decide)).1).trans (by decide),
   ((c1_structured_ids c1resp sampleWines c1cap (by decide) (by decide)).2
      [wDelta, wGamma, wBeta, wAlpha] (by decide) (by decide)).trans (by decide)⟩

/-- C4: when the structured-id layer produces nothing, the numbered-title
layer matches each `"<n>. <title>"` line — titles and display names compared
after lower-casing, diacritic stripping, punctuation stripping and
whitespace collapsing, a candidate matching when its normalised name equals
or starts with the normalised title — in line order, capped at 8. -/
theorem c4_numbered_titles (response : List Char) (wines : List Wine)
    (h1 : layer1 response wines = none)
    (hne : matchedTitles response wines ≠ []) :
    extractRecommendationsFromResponse response wines
      = (matchedTitles response wines).take 8 := by
  apply extract_of_layer2 h1
  unfold layer2
  simp [hne]

/-- Witness for C4: a reply with no marker line and two numbered titles that
exactly match two candidate names yields those two items in list order. -/
theorem c4_numbered_titles_witness :
    extractRecommendationsFromResponse c4resp sampleWines = [wGamma, wAlpha] :=
  (c4_numbered_titles c4resp sampleWines (by decide) (by decide)).trans (by decide)

/-- C5 (amended): when the first two layers produce nothing, the substring
fallback collects — in candidate-list order, not longest-name-first — the
candidates whose lower-cased display name occurs in the lower-cased reply,
capped at 8. -/
theorem c5_substring_fallback (response : List Char) (wines : List Wine)
    (h1 : layer1 response wines = none) (h2 : layer2 response wines = none)
    (hne : substringMatches response wines ≠ []) :
    extractRecommendationsFromResponse response wines
      = (substringMatches response wines).take 8 := by
  apply extract_of_layer3 h1 h2
  unfold layer3
  have h8 : (substringMatches response wines).take 8 ≠ [] :=
    take_ne_nil_of_ne_nil (by decide) hne
  simp [h8]

/-- Witness for C5 (amended): both candidate names occur in the reply and
come back in candidate order. -/
theorem c5_substring_fallback_witness :
    extractRecommendationsFromResponse c5resp sampleWines = [wAlpha, wBeta] :=
  (c5_substring_fallback c5resp sampleWines (by decide) (by decide) (by decide)).trans
    (by decide)

/-- Counterexample to C5 as stated: with candidates named `a` then `ab` and
the reply `zz ab`, the code collects in candidate order (`a` before `ab`),
not longest-display-name-first (`ab` before `a`) as the claim describes. -/
theorem c5_substring_fallback_cex :
    extractRecommendationsFromResponse (("zz ab").toList) [c5wineA, c5wineB]
        = [c5wineA, c5wineB] ∧
    claimedSubstringFallback (("zz ab").toList) [c5wineA, c5wineB]
        = [c5wineB, c5wineA] ∧
    extractRecommendationsFromResponse (("zz ab").toList) [c5wineA, c5wineB]
        ≠ claimedSubstringFallback (("zz ab").toList) [c5wineA, c5wineB] := by
  refine ⟨by decide, by decide, by decide⟩

/-- C6 (amended): with no API credential (or a failed completion) the
endpoint answers with the canned language-specific message and a
deterministic fallback set: the first 3 colour-keyword matches when at least
3 match, otherwise — including when a colour keyword matched fewer than 3
items — the first 3 items of the catalog; no retry happens (the degraded
response is a pure function of query, catalog and language). -/
theorem c6_degraded_fallback (message : List Char) (wines : List Wine)
    (language : Language) :
    degradedResponse message wines language
      = (generateFallbackResponse message wines language, getSimpleFallback message wines) ∧
    ((colorFiltered message wines).length ≥ 3 →
      getSimpleFallback message wines = (colorFiltered message wines).take 3) ∧
    ((colorFiltered message wines).length < 3 →
      getSimpleFallback message wines = wines.take 3) := by
  refine ⟨rfl, ?_, ?_⟩
  · intro h
    unfold getSimpleFallback
    simp [h]
  · intro h
    unfold getSimpleFallback
    rw [if_neg (by omega)]

/-- Witness for C6 (amended): a query for red with three red candidates
takes the three reds; with a single red candidate it falls back to the first
3 of the catalog. -/
theorem c6_degraded_fallback_witness :
    getSimpleFallback (("red").toList) [wAlpha, wBeta, wGamma, wEps]
        = [wAlpha, wGamma, wEps] ∧
    getSimpleFallback (("red").toList) [c6white, c6red] = [c6white, c6red] :=
  ⟨((c6_degraded_fallback (("red").toList) [wAlpha, wBeta, wGamma, wEps] .en).2.1
      (by decide)).trans (by decide),
   ((c6_degraded_fallback (("red").toList) [c6white, c6red] .en).2.2
      (by decide)).trans (by decide)⟩

/-- Counterexample to C6 as stated: the query `red` against a catalog whose
only red wine is listed second — the claim predicts just that red wine (the
first 3 colour matches), but the code, finding fewer than 3 matches,
returns the first 3 items of the whole catalog, white wine included. -/
theorem c6_degraded_fallback_cex :
    getSimpleFallback (("red").toList) [c6white, c6red] = [c6white, c6red] ∧
    claimedSimpleFallback (("red").toList) [c6white, c6red] = [c6red] ∧
    getSimpleFallback (("red").toList) [c6white, c6red]
      ≠ claimedSimpleFallback (("red").toList) [c6white, c6red] := by
  refine ⟨by decide, by decide, by decide⟩

/-- The sorted price list has the length of the candidate list. -/
theorem sortedPrices_length (candidates : List Wine) :
    (sortedPrices candidates).length = candidates.length := by
  unfold sortedPrices
  rw [List.length_insertionSort, List.length_map]

/-- C3: the pre-filter first removes excluded ids, then applies exactly one
price filter, first match winning — `above N` keeps prices strictly above
`N`; otherwise `under N` keeps prices strictly below `N`; otherwise a
luxury/premium keyword keeps prices at or above the 75th-percentile price
(the ascending-sorted price at index `⌊0.75·n⌋`); otherwise no price filter
is applied. -/
theorem c3_prefilter_chain (message : List Char) (wines : List Wine)
    (excludeIds : List (List Char)) :
    (∀ n : Nat, matchAbove (jsToLower message) = some n →
      preFilter message wines excludeIds
        = (baseOf wines excludeIds).filter
            (fun w => decide (parsePrice w.Price > (n : ℚ)))) ∧
    (∀ n : Nat, matchAbove (jsToLower message) = none →
      matchUnder (jsToLower message) = some n →
      preFilter message wines excludeIds
        = (baseOf wines excludeIds).filter
            (fun w => decide (parsePrice w.Price < (n : ℚ)))) ∧
    (matchAbove (jsToLower message) = none →
      matchUnder (jsToLower message) = none →
      hasLuxury (jsToLower message) = true →
      baseOf wines excludeIds ≠ [] →
      preFilter message wines excludeIds
        = (baseOf wines excludeIds).filter
            (fun w => decide (parsePrice w.Price ≥ percentile75 (baseOf wines excludeIds)))) ∧
    (matchAbove (jsToLower message) = none →
      matchUnder (jsToLower message) = none →
      hasLuxury (jsToLower message) = false →
      preFilter message wines excludeIds = baseOf wines excludeIds) := by
  refine ⟨?_, ?_, ?_, ?_⟩
  · intro n ha
    simp only [preFilter, ha]
  · intro n ha hu
    simp only [preFilter, ha, hu]
  · intro ha hu hl hb
    have hlen : (sortedPrices (baseOf wines excludeIds)).length > 0 := by
      rw [sortedPrices_length]
      exact List.length_pos.mpr hb
    simp only [preFilter, ha, hu, hl, if_true, hlen, if_pos]
  · intro ha hu hl
    simp only [preFilter, ha, hu, hl, Bool.false_eq_true, if_false]

/-- Witness for C3: an `above 25` query keeps the two wines above 25 €, and
a keyword-free query leaves the candidate set unchanged. -/
theorem c3_prefilter_chain_witness :
    preFilter (("above 25").toList) sampleWines [] = [wGamma, wDelta] ∧
    preFilter (("hello").toList) sampleWines [] = sampleWines :=
  ⟨((c3_prefilter_chain (("above 25").toList) sampleWines []).1 25 (by decide)).trans
      (by decide),
   ((c3_prefilter_chain (("hello").toList) sampleWines []).2.2.2 (by decide) (by decide)
      (by decide)).trans (by decide)⟩

/-- C10: on a non-empty candidate set the luxury/premium branch can never
empty the candidates — the index `⌊0.75·n⌋` is in range, so the threshold is
itself one of the candidate prices, and the wine attaining it survives the
at-or-above filter. -/
theorem c10_premium_nonempty (message : List Char) (wines : List Wine)
    (excludeIds : List (List Char))
    (ha : matchAbove (jsToLower message) = none)
    (hu : matchUnder (jsToLower message) = none)
    (hl : hasLuxury (jsToLower message) = true)
    (hb : baseOf wines excludeIds ≠ []) :
    (∃ w ∈ baseOf wines excludeIds,
      parsePrice w.Price = percentile75 (baseOf wines excludeIds)) ∧
    preFilter message wines excludeIds ≠ [] := by
  set base := baseOf wines excludeIds with hbase
  have hlen : 0 < (sortedPrices base).length := by
    rw [sortedPrices_length]
    exact List.length_pos.mpr hb
  have hidx : (3 * (sortedPrices base).length) / 4 < (sortedPrices base).length := by
    omega
  have hthr : percentile75 base ∈ sortedPrices base := by
    unfold percentile75
    rw [List.getD_eq_getElem _ _ hidx]
    exact List.getElem_mem hidx
  have hmem : percentile75 base ∈ base.map (fun w => parsePrice w.Price) := by
    have hperm := List.perm_insertionSort (α := ℚ) (· ≤ ·) (base.map (fun w => parsePrice w.Price))
    exact hperm.subset hthr
  obtain ⟨w, hw, hwp⟩ := List.mem_map.mp hmem
  refine ⟨⟨w, hw, hwp⟩, ?_⟩
  have hfil : preFilter message wines excludeIds
      = base.filter (fun w => decide (parsePrice w.Price ≥ percentile75 base)) := by
    have hlen2 : (sortedPrices base).length > 0 := hlen
    simp only [preFilter, ha, hu, hl, if_true, ← hbase, hlen2, if_pos]
  rw [hfil]
  apply List.ne_nil_of_mem (a := w)
  rw [List.mem_filter]
  exact ⟨hw, by simp [hwp]⟩

/-- Witness for C10: a premium query over the four sample wines keeps the
40 € wine (the 75th-percentile price of 10, 20, 30, 40 is 40). -/
theorem c10_premium_nonempty_witness :
    (∃ w ∈ baseOf sampleWines [],
      parsePrice w.Price = percentile75 (baseOf sampleWines [])) ∧
    preFilter (("premium wine").toList) sampleWines [] ≠ [] :=
  c10_premium_nonempty (("premium wine").toList) sampleWines []
    (by decide) (by decide) (by decide) (by decide)

/-- After the initial render and `k` show-more steps, the shown ids are
exactly the ids of the first `4·(k+1)` padded recommendations. -/
theorem runPagination_shownIds (recs : List Wine) (k : Nat) :
    (runPagination recs k).shownIds = (recs.take (4 * (k + 1))).map Wine.id := by
  induction k with
  | zero => simp [runPagination, initialShow]
  | succ k ih =>
    have hlen : (runPagination recs k).shownIds.length
        = min (4 * (k + 1)) recs.length := by
      rw [ih, List.length_map, List.length_take]
    rcases le_or_lt recs.length (4 * (k + 1)) with hL | hL
    · have hmin : min (4 * (k + 1)) recs.length = recs.length := Nat.min_eq_right hL
      have hb : ((recs.drop ((runPagination recs k).shownIds.length)).take 4) = [] := by
        rw [hlen, hmin, List.drop_length]
        rfl
      simp only [runPagination, handleShowMore, hb, if_pos]
      rw [ih, List.take_of_length_le hL, List.take_of_length_le (by omega)]
    · have hmin : min (4 * (k + 1)) recs.length = 4 * (k + 1) := Nat.min_eq_left (by omega)
      have hb : ((recs.drop ((runPagination recs k).shownIds.length)).take 4) ≠ [] := by
        rw [hlen, hmin]
        apply take_ne_nil_of_ne_nil (by decide)
        intro hnil
        rw [List.drop_eq_nil_iff] at hnil
        omega
      simp only [runPagination, handleShowMore, hb, if_neg, if_false]
      rw [ih, List.length_map, List.length_take, hmin, ← List.map_append,
        ← List.take_add]
      have : 4 * (k + 1) + 4 = 4 * (k + 1 + 1) := by ring
      rw [this]

/-- The batch a show-more step renders is the next 4-slice of the padded
list. -/
theorem handleShowMore_batch (recs : List Wine) (k : Nat) :
    (handleShowMore recs (runPagination recs k)).2.1
      = (recs.drop (4 * (k + 1))).take 4 := by
  have hlen : (runPagination recs k).shownIds.length
      = min (4 * (k + 1)) recs.length := by
    rw [runPagination_shownIds, List.length_map, List.length_take]
  rcases le_or_lt recs.length (4 * (k + 1)) with hL | hL
  · have hmin : min (4 * (k + 1)) recs.length = recs.length := Nat.min_eq_right hL
    have hb : ((recs.drop ((runPagination recs k).shownIds.length)).take 4) = [] := by
      rw [hlen, hmin, List.drop_length]
      rfl
    simp only [handleShowMore, hb, if_pos]
    rw [List.drop_eq_nil_of_le hL]
    rfl
  · have hmin : min (4 * (k + 1)) recs.length = 4 * (k + 1) := Nat.min_eq_left (by omega)
    have hb : ((recs.drop ((runPagination recs k).shownIds.length)).take 4) ≠ [] := by
      rw [hlen, hmin]
      apply take_ne_nil_of_ne_nil (by decide)
      intro hnil
      rw [List.drop_eq_nil_iff] at hnil
      omega
    simp only [handleShowMore, hb, if_neg, if_false]
    rw [hlen, hmin]

/-- The show-more affordance after a step is offered exactly while items
remain beyond the next slice. -/
theorem handleShowMore_flag (recs : List Wine) (k : Nat) :
    (handleShowMore recs (runPagination recs k)).2.2
      = decide (4 * (k + 2) < recs.length) := by
  have hlen : (runPagination recs k).shownIds.length
      = min (4 * (k + 1)) recs.length := by
    rw [runPagination_shownIds, List.length_map, List.length_take]
  rcases le_or_lt recs.length (4 * (k + 1)) with hL | hL
  · have hmin : min (4 * (k + 1)) recs.length = recs.length := Nat.min_eq_right hL
    have hb : ((recs.drop ((runPagination recs k).shownIds.length)).take 4) = [] := by
      rw [hlen, hmin, List.drop_length]
      rfl
    simp only [handleShowMore, hb, if_pos]
    symm
    rw [decide_eq_false_iff_not]
    omega
  · have hmin : min (4 * (k + 1)) recs.length = 4 * (k + 1) := Nat.min_eq_left (by omega)
    have hb : ((recs.drop ((runPagination recs k).shownIds.length)).take 4) ≠ [] := by
      rw [hlen, hmin]
      apply take_ne_nil_of_ne_nil (by decide)
      intro hnil
      rw [List.drop_eq_nil_iff] at hnil
      omega
    simp only [handleShowMore, hb, if_neg, if_false]
    rw [decide_eq_decide]
    rw [hlen, hmin, List.length_take, List.length_drop]
    omega

/-- C8: pagination over a padded list with distinct ids — the initial render
shows the first 4, each show-more renders the next consecutive slice of at
most 4 starting at the number of already-shown ids (with no new completion
call: the step is a pure function of the cached list and the state), shown
ids are never repeated, the affordance is offered exactly while items
remain; a 10-item list gives batches of 4, 4 and 2, after which the
affordance is withdrawn and a further step renders nothing. -/
theorem c8_pagination (recs : List Wine) (k : Nat)
    (hnd : (recs.map Wine.id).Nodup) :
    (initialShow recs).2.1 = recs.take 4 ∧
    (handleShowMore recs (runPagination recs k)).2.1
      = (recs.drop (4 * (k + 1))).take 4 ∧
    (handleShowMore recs (runPagination recs k)).2.1.length ≤ 4 ∧
    (runPagination recs k).shownIds.Nodup ∧
    (handleShowMore recs (runPagination recs k)).2.2
      = decide (4 * (k + 2) < recs.length) ∧
    (recs.length = 10 →
      (initialShow recs).2.1.length = 4 ∧
      (handleShowMore recs (runPagination recs 0)).2.1.length = 4 ∧
      (handleShowMore recs (runPagination recs 1)).2.1.length = 2 ∧
      (handleShowMore recs (runPagination recs 1)).2.2 = false ∧
      (handleShowMore recs (runPagination recs 2)).2.1 = []) := by
  refine ⟨rfl, handleShowMore_batch recs k, ?_, ?_, handleShowMore_flag recs k, ?_⟩
  · rw [handleShowMore_batch]
    have := List.length_take 4 (recs.drop (4 * (k + 1)))
    omega
  · rw [runPagination_shownIds]
    exact List.Nodup.sublist (List.Sublist.map Wine.id (List.take_sublist _ _)) hnd
  · intro hL
    refine ⟨?_, ?_, ?_, ?_, ?_⟩
    · simp [initialShow, List.length_take, hL]
    · rw [handleShowMore_batch]
      rw [List.length_take, List.length_drop, hL]
      omega
    · rw [handleShowMore_batch]
      rw [List.length_take, List.length_drop, hL]
      omega
    · rw [handleShowMore_flag, hL]
      rfl
    · rw [handleShowMore_batch]
      rw [List.drop_eq_nil_of_le (by omega)]
      rfl

/-- Witness for C8 on the concrete ten-wine list: the third show-more batch
has 2 items, the affordance is then withdrawn, and no id repeats. -/
theorem c8_pagination_witness :
    (handleShowMore pagWines (runPagination pagWines 1)).2.1.length = 2 ∧
    (handleShowMore pagWines (runPagination pagWines 1)).2.2 = false ∧
    (runPagination pagWines 1).shownIds.Nodup :=
  ⟨((c8_pagination pagWines 1 (by decide)).2.2.2.2.2 (by decide)).2.2.1,
   ((c8_pagination pagWines 1 (by decide)).2.2.2.2.2 (by decide)).2.2.2.1,
   (c8_pagination pagWines 1 (by decide)).2.2.2.1⟩

/-- `modifyAt` keeps any projection the update function preserves. -/
theorem modifyAt_map_eq {α β : Type} (l : List α) (i : Nat) (f : α → α)
    (g : α → β) (hg : ∀ x, g (f x) = g x) :
    (modifyAt l i f).map g = l.map g := by
  induction l generalizing i with
  | nil => rfl
  | cons x xs ih =>
    cases i with
    | zero => simp [modifyAt, hg]
    | succ n => simp [modifyAt, ih]

/-- `modifyAt` keeps the length. -/
theorem modifyAt_length {α : Type} (l : List α) (i : Nat) (f : α → α) :
    (modifyAt l i f).length = l.length := by
  induction l generalizing i with
  | nil => rfl
  | cons x xs ih =>
    cases i with
    | zero => simp [modifyAt]
    | succ n => simp [modifyAt, ih]

/-- Every element of `modifyAt l i f` is an old element or the image of
one. -/
theorem mem_modifyAt {α : Type} {l : List α} {i : Nat} {f : α → α} {x : α}
    (h : x ∈ modifyAt l i f) : x ∈ l ∨ ∃ y ∈ l, x = f y := by
  induction l generalizing i with
  | nil => simp [modifyAt] at h
  | cons a as ih =>
    cases i with
    | zero =>
      simp only [modifyAt, List.mem_cons] at h
      rcases h with h | h
      · exact Or.inr ⟨a, List.mem_cons_self a as, h⟩
      · exact Or.inl (List.mem_cons_of_mem a h)
    | succ n =>
      simp only [modifyAt, List.mem_cons] at h
      rcases h with h | h
      · exact Or.inl (h ▸ List.mem_cons_self a as)
      · rcases ih h with h2 | ⟨y, hy, hxy⟩
        · exact Or.inl (List.mem_cons_of_mem a h2)
        · exact Or.inr ⟨y, List.mem_cons_of_mem a hy, hxy⟩

/-- The three cart invariants, bundled for the induction. -/
def CartInv (c : List CartItem) : Prop :=
  (c.map (fun it => it.wine.URL)).Nodup ∧ c.length ≤ MAX_CART_ITEMS ∧
    ∀ it ∈ c, 1 ≤ it.quantity

/-- `addItem` preserves the cart invariants for positive quantities. -/
theorem cartInv_addItem {c : List CartItem} (wine : Wine) (q : ℤ) (now : Nat)
    (hq1 : 1 ≤ q) (h : CartInv c) : CartInv (addItem c wine q now).1 := by
  obtain ⟨hnd, hlen, hpos⟩ := h
  unfold addItem
  cases hf : c.findIdx? (fun it => it.wine.URL == wine.URL) with
  | some i =>
    refine ⟨?_, ?_, ?_⟩
    · rw [modifyAt_map_eq]
      · exact hnd
      · intro x
        rfl
    · rw [modifyAt_length]
      exact hlen
    · intro it hit
      rcases mem_modifyAt hit with hmem | ⟨y, hy, hity⟩
      · exact hpos it hmem
      · have := hpos y hy
        simp only [hity]
        omega
  | none =>
    by_cases hfull : c.length ≥ MAX_CART_ITEMS
    · simp only [hfull, if_pos]
      exact ⟨hnd, hlen, hpos⟩
    · simp only [hfull, if_neg, if_false]
      refine ⟨?_, ?_, ?_⟩
      · rw [List.map_append]
        rw [List.nodup_append]
        refine ⟨hnd, List.nodup_singleton _, ?_⟩
        intro u hu
        simp only [List.map_cons, List.map_nil, List.mem_singleton]
        intro hu1
        obtain ⟨it, hit, hitu⟩ := List.mem_map.mp hu
        have hnone := List.findIdx?_eq_none_iff.mp hf
        have := hnone it hit
        have heq : it.wine.URL = wine.URL := hitu.trans hu1
        simp [heq] at this
      · rw [List.length_append]
        simp only [List.length_singleton]
        omega
      · intro it hit
        rcases List.mem_append.mp hit with hmem | hmem
        · exact hpos it hmem
        · rw [List.mem_singleton] at hmem
          rw [hmem]
          exact hq1

/-- `removeItem` preserves the cart invariants. -/
theorem cartInv_removeItem {c : List CartItem} (url : List Char)
    (h : CartInv c) : CartInv (removeItem c url) := by
  obtain ⟨hnd, hlen, hpos⟩ := h
  refine ⟨?_, ?_, ?_⟩
  · exact List.Nodup.sublist
      (List.Sublist.map _ (List.filter_sublist c)) hnd
  · exact le_trans (List.length_filter_le _ c) hlen
  · intro it hit
    exact hpos it (List.mem_of_mem_filter hit)

/-- `updateQuantity` preserves the cart invariants. -/
theorem cartInv_updateQuantity {c : List CartItem} (url : List Char) (q : ℤ)
    (h : CartInv c) : CartInv (updateQuantity c url q) := by
  obtain ⟨hnd, hlen, hpos⟩ := h
  unfold updateQuantity
  cases hf : c.findIdx? (fun it => it.wine.URL == url) with
  | some i =>
    by_cases hq : q ≤ 0
    · simp only [hq, if_pos]
      exact cartInv_removeItem url ⟨hnd, hlen, hpos⟩
    · simp only [hq, if_neg, if_false]
      refine ⟨?_, ?_, ?_⟩
      · rw [modifyAt_map_eq]
        · exact hnd
        · intro x
          rfl
      · rw [modifyAt_length]
        exact hlen
      · intro it hit
        rcases mem_modifyAt hit with hmem | ⟨y, hy, hity⟩
        · exact hpos it hmem
        · simp only [hity]
          omega
  | none => exact ⟨hnd, hlen, hpos⟩

/-- C9 (amended): every cart state reachable from the empty cart through
`addItem` (with the 1..10 quantities the popup can pass), `removeItem` and
`updateQuantity` has at most one entry per item URL and at most
`MAX_CART_ITEMS` entries, and every quantity is at least 1 — but quantities
are not bounded by 10 (see the counterexample). -/
theorem c9_cart_invariants (c : List CartItem) (h : ReachableCart c) :
    (c.map (fun it => it.wine.URL)).Nodup ∧ c.length ≤ MAX_CART_ITEMS ∧
      ∀ it ∈ c, 1 ≤ it.quantity := by
  induction h with
  | empty => exact ⟨List.nodup_nil, by simp [MAX_CART_ITEMS], by simp⟩
  | add wine q now hq1 hq10 h ih => exact cartInv_addItem wine q now hq1 ih
  | remove url h ih => exact cartInv_removeItem url ih
  | update url q h ih => exact cartInv_updateQuantity url q ih

/-- Witness for C9 (amended) on a one-entry reachable cart. -/
theorem c9_cart_invariants_witness :
    ((addItem [] c9wine 2 0).1.map (fun it => it.wine.URL)).Nodup ∧
    (addItem [] c9wine 2 0).1.length ≤ MAX_CART_ITEMS ∧
    ∀ it ∈ (addItem [] c9wine 2 0).1, 1 ≤ it.quantity :=
  c9_cart_invariants (addItem [] c9wine 2 0).1
    (ReachableCart.add c9wine 2 0 (by decide) (by decide) ReachableCart.empty)

/-- Counterexample to C9 as stated: adding the same wine twice with the
maximal selector quantity 10 gives a reachable cart whose single entry has
quantity 20, outside the claimed 1..10 range. -/
theorem c9_cart_invariants_cex :
    ReachableCart c9cart ∧ ∃ it ∈ c9cart, ¬(1 ≤ it.quantity ∧ it.quantity ≤ 10) := by
  constructor
  · exact ReachableCart.add c9wine 10 1 (by decide) (by decide)
      (ReachableCart.add c9wine 10 0 (by decide) (by decide) ReachableCart.empty)
  · decide

end VSomm